import Mathlib

/-!
Shallow embedding of the TRF (temporal receptive field) fitting engine of
`naplib/encoding/trf.py`, together with proofs about the claims made by the
design specification of that module.

Machine arithmetic is modelled over `ℚ`: Python's `round` (banker's rounding,
half-to-even) becomes `pyRound`, and Python's `int(...)` truncation toward zero
becomes `pyTrunc`.  Arrays become `List`s, and the in-place mutation performed
by `fit` is modelled with an explicit store of arrays addressed by indices.
-/

namespace Naplib

/-- Python's built-in `round` on a rational value: round half to even. -/
def pyRound (q : ℚ) : ℤ :=
  if q - ⌊q⌋ < 1/2 then ⌊q⌋
  else if 1/2 < q - ⌊q⌋ then ⌊q⌋ + 1
  else if Even ⌊q⌋ then ⌊q⌋ else ⌊q⌋ + 1

/-- Python's `int(...)` applied to a real value: truncation toward zero. -/
def pyTrunc (q : ℚ) : ℤ :=
  if 0 ≤ q then ⌊q⌋ else ⌈q⌉

/-- Embedding of `TRF._smin` (trf.py line 98): `int(round(tmin * sfreq))`. -/
def smin (tmin sfreq : ℚ) : ℤ := pyRound (tmin * sfreq)

/-- Embedding of `TRF._smax` (trf.py line 102): `int(round(tmax * sfreq)) + 1`. -/
def smax (tmax sfreq : ℚ) : ℤ := pyRound (tmax * sfreq) + 1

/-- The delay set `self.delays_` initialized in `TRF.fit` (trf.py line 180):
the integer lags `np.arange(smin, smax)`, where `_times_to_delays` uses the
same arithmetic as `TRF._smin` / `TRF._smax`. -/
def delaysList (tmin tmax sfreq : ℚ) : List ℤ :=
  (List.range (smax tmax sfreq - smin tmin sfreq).toNat).map
    (fun i : ℕ => smin tmin sfreq + (i : ℤ))

/-- Length of the window `np.hamming(2*int((tmax-tmin) * sfreq))` built in
`TRF.fit` (trf.py line 158). -/
def hammingLength (tmin tmax sfreq : ℚ) : ℕ :=
  2 * (pyTrunc ((tmax - tmin) * sfreq)).toNat

/-- The number of samples tapered at each boundary of a trial's target in
`TRF.fit` (trf.py lines 159-160): `hamming[:len(hamming)//2]` fades the start
in and `hamming[-(len(hamming)//2):]` fades the end out, so each tapered
region has `len(hamming) // 2` samples. -/
def taperLen (tmin tmax sfreq : ℚ) : ℕ :=
  hammingLength tmin tmax sfreq / 2

/-- The in-place boundary taper applied to one (single-channel) trial target in
`TRF.fit` (trf.py lines 164-166): the first `wStart.length` samples are
multiplied elementwise by the fade-in window and the last `wEnd.length`
samples by the fade-out window. -/
def taperTrial (wStart wEnd y : List ℚ) : List ℚ :=
  let y1 := (List.zipWith (· * ·) wStart (y.take wStart.length)) ++ y.drop wStart.length
  y1.take (y1.length - wEnd.length) ++
    List.zipWith (· * ·) wEnd (y1.drop (y1.length - wEnd.length))

end Naplib

namespace Naplib

/-! ### Cross-validation splits (`_xval_time_splits`, trf.py lines 410-426) -/

/-- Embedding of `win_size = np.floor(data.shape[0] * test_portion).astype('int')`
(trf.py line 415). -/
def winSize (T : ℕ) (p : ℚ) : ℕ := ⌊(T : ℚ) * p⌋.toNat

/-- Embedding of `num_chunks = int(((data.shape[0]-win_size)/win_size)+1)` (trf.py
line 417): true division followed by `int` truncation toward zero. -/
def numChunks (T w : ℕ) : ℕ :=
  (pyTrunc (((T : ℚ) - (w : ℚ)) / (w : ℚ) + 1)).toNat

/-- The fold generator `_xval_time_splits` (trf.py lines 410-426).  Fold `k`
(for `k < num_chunks`) has test block `data[k*w : k*w + w]` and train data
`np.delete(data, slice(k*w, k*w + w))`, i.e. the rest of the samples in their
original order. -/
def xvalTimeSplits {α : Type} (data : List α) (p : ℚ) :
    List (List α × List α) :=
  let w := winSize data.length p
  (List.range (numChunks data.length w)).map (fun k =>
    (data.take (k * w) ++ data.drop (k * w + w),
     (data.drop (k * w)).take w))

/-! ### Per-channel alpha selection (trf.py lines 196-256) -/

/-- First index attaining the maximum of a list of scores: the behaviour of
`np.argmax` (trf.py line 251), which returns the first occurrence of the
maximal value. -/
def argmaxFirst : List ℚ → ℕ
  | [] => 0
  | [_] => 0
  | x :: y :: xs =>
    if (y :: xs).getD (argmaxFirst (y :: xs)) 0 ≤ x then 0
    else argmaxFirst (y :: xs) + 1

/-- Embedding of `mean_scores = scores.mean(0)` (trf.py line 248): the columnwise mean of
the fold-by-alpha score matrix (rows indexed by cross-validation fold,
columns by alpha candidate). -/
def meanScores (scores : List (List ℚ)) : List ℚ :=
  match scores with
  | [] => []
  | r0 :: _ =>
    (List.range r0.length).map (fun j =>
      ((scores.map (fun row => row.getD j 0)).sum) / (scores.length : ℚ))

/-- Alpha selection in `TRF.fit` (trf.py lines 251-252):
`best_alpha = alpha[np.argmax(mean_scores)]`. -/
def chooseBestAlpha (alphas : List ℚ) (scores : List (List ℚ)) : ℚ :=
  alphas.getD (argmaxFirst (meanScores scores)) 0

/-! ### Coefficient tensor shapes (trf.py lines 258-278) -/

/-- Shape of the coefficient array `rf.coef_` of one fitted per-channel
`mne.decoding.ReceptiveField` model: `(n_y_channels, n_features, n_delays)`.
The mne library is an external dependency; this is its documented contract,
and it is pinned by the repository's own tests
(`test_good_coef_shape_STRF` and `test_good_coef_shape_stim_recon` in
`tests/encoding/test_trf.py`). -/
def rfCoefShape (nYch nFeat nDelays : ℕ) : List ℕ := [nYch, nFeat, nDelays]

/-- The trim `rf.coef_[:, :, :-1]` performed after the per-channel refit
(trf.py lines 261-262): the column of the last (most edge-affected) delay is
dropped from the 3-axis per-channel coefficient array. -/
def trimLastDelay : List ℕ → List ℕ
  | [a, b, d] => [a, b, d - 1]
  | s => s

/-- Embedding of `np.concatenate(coefs_, axis=0)` on `n` tensors of a common shape
(trf.py line 278). -/
def concatAxis0 (n : ℕ) : List ℕ → List ℕ
  | [] => []
  | a :: rest => (n * a) :: rest

/-- Shape of the `TRF.coef_` property (trf.py lines 267-278) after a fit of
`nOutputs` target channels.  For 2-D targets (`ndim_y_ = 2`) each per-channel
model has one y-channel; for 3-D targets each per-channel model's y-channels
are the `nOutFeat` output features and a new leading axis is inserted
(`mdl.coef_[np.newaxis, :, :, :]`) before concatenating along axis 0. -/
def trfCoefShape (ndimY nOutputs nFeat nOutFeat nDelays : ℕ) : List ℕ :=
  if ndimY = 2 then
    concatAxis0 nOutputs (trimLastDelay (rfCoefShape 1 nFeat nDelays))
  else
    concatAxis0 nOutputs (1 :: trimLastDelay (rfCoefShape nOutFeat nFeat nDelays))

/-! ### Orchestrator state machine (fit / predict / score / coef_) -/

/-- Failure while fitting one output channel (e.g. a numerical error from a
singular covariance, surfaced by the solver). -/
inductive FitErr
  | numerical
deriving DecidableEq, Repr

/-- The dynamically attached state of a `TRF` instance: `ndim_y_` (set at
trf.py line 172) and `models_` (set at line 177 and appended to at line 263).
`none` models the attribute being absent, as on a freshly constructed
instance. -/
structure TRFState where
  ndimY : Option ℕ
  models : Option (List (List ℚ))
deriving DecidableEq, Repr

/-- A freshly constructed instance: neither `ndim_y_` nor `models_` exists. -/
def unfitTRF : TRFState := ⟨none, none⟩

/-- The guard of `TRF.predict` (trf.py lines 309-310): raise a state error
iff the attribute `models_` is absent. -/
def predictRaisesStateError (s : TRFState) : Bool := s.models.isNone

/-- The guard of `TRF.score` (trf.py lines 364-365): raise a state error
iff the attribute `models_` is absent. -/
def scoreRaisesStateError (s : TRFState) : Bool := s.models.isNone

/-- The guard of the `TRF.coef_` property (trf.py lines 269-270): raise a
state error iff the attribute `ndim_y_` is absent. -/
def coefRaisesStateError (s : TRFState) : Bool := s.ndimY.isNone

/-- The per-output-channel loop of `TRF.fit` (trf.py lines 186-263),
parametrized by the per-channel solver `fc` (the cross-validation plus refit
performed through the external mne estimator, which may fail with a
numerical error).  Models fitted before a failure stay appended, and the
error propagates to the caller. -/
def fitChannels (fc : ℕ → Except FitErr (List ℚ)) :
    List (List ℚ) → List ℕ → List (List ℚ) × Except FitErr Unit
  | done, [] => (done, .ok ())
  | done, i :: rest =>
    match fc i with
    | .error e => (done, .error e)
    | .ok c => fitChannels fc (done ++ [c]) rest

/-- The state effect of a call to `TRF.fit` (trf.py lines 118-265) on an
instance in state `s`: `ndim_y_` is assigned (line 172) and `models_` is
reset (line 177) before the per-channel loop runs, so both attributes are
present afterwards whether or not the loop finished; the second component is
the call's outcome. -/
def fitTRF (s : TRFState) (ndimIn nTargets : ℕ)
    (fc : ℕ → Except FitErr (List ℚ)) : TRFState × Except FitErr Unit :=
  let out := fitChannels fc [] (List.range nTargets)
  ({ ndimY := some ndimIn, models := some out.1 }, out.2)

/-- A per-channel solver that fits channel 0 successfully and fails with a
numerical error on every later channel. -/
def failingSecondChannel : ℕ → Except FitErr (List ℚ) :=
  fun i => if i = 0 then .ok [1] else .error .numerical

end Naplib

namespace Naplib

/-! ### Construction-time configuration validation (`TRF.__init__`,
trf.py lines 63-94) -/

/-- A configuration error raised by `TRF.__init__`. -/
inductive InitErr
  | tminNotLessThanTmax
  | portionTooLarge
deriving DecidableEq, Repr

/-- The `alpha` argument of `TRF.__init__`: a scalar, an explicit list of
candidates, or the default `None`. -/
inductive AlphaArg
  | scalar (a : ℚ)
  | listArg (l : List ℚ)
  | defaultArg
deriving DecidableEq, Repr

/-- The default alpha grid `[round(x, 2) for x in np.logspace(2, 9, 8)]`
(trf.py line 79): the eight powers of ten from `10^2` to `10^9`, all exact,
so rounding to two decimals leaves them unchanged. -/
def defaultAlphas : List ℚ :=
  [100, 1000, 10000, 100000, 1000000, 10000000, 100000000, 1000000000]

/-- The candidate list `self.alpha` after `TRF.__init__` normalizes its
`alpha` argument (trf.py lines 78-85): `None` becomes the default grid, a
scalar becomes a singleton, and a list is kept as is. -/
def alphaCandidates : AlphaArg → List ℚ
  | .scalar a => [a]
  | .listArg l => l
  | .defaultArg => defaultAlphas

/-- The immutable configuration held by a successfully constructed instance. -/
structure TRFConfig where
  tmin : ℚ
  tmax : ℚ
  sfreq : ℚ
  alpha : List ℚ
  xvalTestPortion : ℚ
deriving DecidableEq, Repr

/-- Embedding of `TRF.__init__` (trf.py lines 63-94): raise if `tmin >= tmax` (line 75);
normalize `alpha`; then raise if more than one alpha candidate was given and
`xval_test_portion > 0.5` (lines 92-94).  No data is touched: this runs
entirely at construction time, before any fitting. -/
def trfInit (tmin tmax sfreq : ℚ) (alpha : AlphaArg) (portion : ℚ) :
    Except InitErr TRFConfig :=
  if tmin ≥ tmax then .error .tminNotLessThanTmax
  else if 1 < (alphaCandidates alpha).length ∧ 1/2 < portion then
    .error .portionTooLarge
  else .ok ⟨tmin, tmax, sfreq, alphaCandidates alpha, portion⟩

/-! ### Score aggregation (`TRF.score` lines 376-382 and
`TRF._score_predictions` lines 385-402) -/

/-- The weight list built by `TRF.score` (trf.py lines 376-380): the trial
durations normalized by their total when `weight_trial_duration` is true,
and all ones otherwise. -/
def scoreWeights (trialLens : List ℕ) (weightTrialDuration : Bool) : List ℚ :=
  if weightTrialDuration then
    trialLens.map (fun t : ℕ => (t : ℚ) / ((trialLens.sum : ℕ) : ℚ))
  else
    trialLens.map (fun _ : ℕ => (1 : ℚ))

/-- Embedding of `np.average(y_scores, axis=1, weights=weights)` at the end of
`TRF._score_predictions` (trf.py line 402), with `perTrialScores` the list
of per-trial score vectors (one vector of per-output scores per trial):
output `o` is `(Σ_t w_t · s_t[o]) / Σ_t w_t`. -/
def scorePredictionsAgg (perTrialScores : List (List ℚ))
    (weights : List ℚ) : List ℚ :=
  match perTrialScores with
  | [] => []
  | s0 :: _ =>
    (List.range s0.length).map (fun o =>
      (List.zipWith (fun w s => w * s.getD o 0) weights perTrialScores).sum
        / weights.sum)

/-- The aggregation performed by `TRF.score` (trf.py lines 376-382): compute
per-trial score vectors (via the configured scorer, abstracted here as the
already-computed `perTrialScores`), then average them with the weights of
`scoreWeights`. -/
def trfScore (perTrialScores : List (List ℚ)) (trialLens : List ℕ)
    (weightTrialDuration : Bool) : List ℚ :=
  scorePredictionsAgg perTrialScores (scoreWeights trialLens weightTrialDuration)

/-! ### Frame effect of fit/predict/score on caller arrays
(trf.py lines 150, 164-166, 312, 367)

Arrays live in an explicit store (a list of array contents addressed by
index); the caller's trials are the cells below the initial store length.
`copy.deepcopy` allocates fresh cells holding equal contents, and the
in-place boundary taper writes only to cells.  `_parse_outstruct_args` (in
`naplib/utils`, not part of the fitting engine) resolves direct list/array
arguments as the arrays themselves, per the specification's external
interface contract. -/

/-- Embedding of `copy.deepcopy` on a list of arrays (trf.py lines 150 and 367): append a
fresh copy of every referenced cell to the store and return the new
references. -/
def deepcopyRefs (st : List (List ℚ)) (rs : List ℕ) :
    List (List ℚ) × List ℕ :=
  (st ++ rs.map (fun r => st.getD r []),
   (List.range rs.length).map (fun i => st.length + i))

/-- The in-place taper loop of `TRF.fit` (trf.py lines 164-166): each
referenced cell is overwritten with its tapered contents. -/
def taperAll (f : List ℚ → List ℚ) (st : List (List ℚ)) (rs : List ℕ) :
    List (List ℚ) :=
  rs.foldl (fun s r => s.set r (f (s.getD r []))) st

/-- The store effect of `TRF.fit` (trf.py lines 150-169): deep-copy the
predictor trials and the target trials, then taper the target copies in
place.  `f` is the taper applied to one trial's contents. -/
def fitStoreEffect (st : List (List ℚ)) (xRefs yRefs : List ℕ)
    (f : List ℚ → List ℚ) : List (List ℚ) :=
  let cx := deepcopyRefs st xRefs
  let cy := deepcopyRefs cx.1 yRefs
  taperAll f cy.1 cy.2

/-- The store effect of `TRF.score` (trf.py line 367): deep-copy the
predictor and target trials; no cell is written afterwards. -/
def scoreStoreEffect (st : List (List ℚ)) (xRefs yRefs : List ℕ) :
    List (List ℚ) :=
  (deepcopyRefs (deepcopyRefs st xRefs).1 yRefs).1

/-- The store effect of `TRF.predict` (trf.py lines 287-326): the input
trials are only read, never copied or written, so the store is unchanged. -/
def predictStoreEffect (st : List (List ℚ)) : List (List ℚ) := st

end Naplib

namespace Naplib

/-! ## Helper lemmas -/

theorem pyRound_intCast (n : ℤ) : pyRound (n : ℚ) = n := by
  unfold pyRound
  rw [Int.floor_intCast]
  norm_num

theorem floor_le_pyRound (q : ℚ) : ⌊q⌋ ≤ pyRound q := by
  unfold pyRound
  split_ifs <;> omega

theorem pyRound_le_floor_add_one (q : ℚ) : pyRound q ≤ ⌊q⌋ + 1 := by
  unfold pyRound
  split_ifs <;> omega

theorem pyRound_mono {a b : ℚ} (h : a ≤ b) : pyRound a ≤ pyRound b := by
  have hf : ⌊a⌋ ≤ ⌊b⌋ := Int.floor_le_floor h
  rcases eq_or_lt_of_le hf with heq | hlt
  · have hab : a - (⌊a⌋ : ℚ) ≤ b - (⌊a⌋ : ℚ) := by linarith
    unfold pyRound
    rw [← heq]
    split_ifs <;> first | omega | linarith
  · calc pyRound a ≤ ⌊a⌋ + 1 := pyRound_le_floor_add_one a
      _ ≤ ⌊b⌋ := by omega
      _ ≤ pyRound b := floor_le_pyRound b

theorem getD_map_range {β : Type} (n k : ℕ) (f : ℕ → β) (d : β) (hk : k < n) :
    (((List.range n).map f).getD k d) = f k := by
  rw [List.getD_eq_getElem?_getD, List.getElem?_map, List.getElem?_range hk]
  rfl

/-! ## C4: number of delays -/

/-- C4 counterexample: for `tmin = 3/8`, `tmax = 5/8`, `sfreq = 1` (all exactly
representable), the delay set has 2 lags while `round((tmax - tmin) * sfreq) + 1`
is 1 — under Python rounding (`pyRound`) and also under round-half-up
(Mathlib's `round`). -/
theorem C4_counterexample :
    (delaysList (3/8) (5/8) 1).length = 2
      ∧ pyRound ((5/8 - 3/8) * 1) + 1 = 1
      ∧ round ((5/8 - 3/8 : ℚ) * 1) + 1 = 1 := by
  refine ⟨?_, ?_, ?_⟩
  · rw [delaysList, List.length_map, List.length_range]
    norm_num [smax, smin, pyRound]
    decide
  · norm_num [pyRound]
  · norm_num [round_eq]

/-- C4 (amended): for every configuration with `tmin < tmax` and `sfreq > 0`,
the delay set contains exactly
`round(tmax * sfreq) - round(tmin * sfreq) + 1` integer lags (Python
rounding); this agrees with `round((tmax - tmin) * sfreq) + 1` only when the
endpoint products round compatibly. -/
theorem C4_delay_count (tmin tmax sfreq : ℚ)
    (h1 : tmin < tmax) (h2 : 0 < sfreq) :
    ((delaysList tmin tmax sfreq).length : ℤ)
      = pyRound (tmax * sfreq) - pyRound (tmin * sfreq) + 1 := by
  have hmul : tmin * sfreq ≤ tmax * sfreq :=
    mul_le_mul_of_nonneg_right h1.le h2.le
  have hle : pyRound (tmin * sfreq) ≤ pyRound (tmax * sfreq) :=
    pyRound_mono hmul
  rw [delaysList, List.length_map, List.length_range, smax, smin]
  rw [Int.toNat_of_nonneg (by omega)]
  ring

theorem C4_delay_count_witness :
    (0 : ℚ) < 1/50 ∧ (0 : ℚ) < 100
      ∧ ((delaysList 0 (1/50) 100).length : ℤ)
          = pyRound ((1/50) * 100) - pyRound (0 * 100) + 1 :=
  ⟨by norm_num, by norm_num,
   C4_delay_count 0 (1/50) 100 (by norm_num) (by norm_num)⟩

/-! ## C5: boundary taper length -/

theorem taperTrial_length (wS wE y : List ℚ) :
    (taperTrial wS wE y).length = y.length := by
  simp only [taperTrial, List.length_append, List.length_take,
    List.length_zipWith, List.length_drop]
  omega

/-- C5 counterexample: with `tmin = 0`, `tmax = 0.02`, `sfreq = 100` (the
configuration of the repository's own tests), the taper touches 2 samples at
each end of a trial's target while the delay set has 3 lags, so the tapered
length does not equal the number of delays. -/
theorem C5_counterexample :
    taperLen 0 (1/50) 100 = 2
      ∧ (delaysList 0 (1/50) 100).length = 3
      ∧ taperLen 0 (1/50) 100 ≠ (delaysList 0 (1/50) 100).length := by
  have h1 : taperLen 0 (1/50) 100 = 2 := by
    rw [taperLen, hammingLength]
    norm_num [pyTrunc]
    decide
  have h2 : (delaysList 0 (1/50) 100).length = 3 := by
    rw [delaysList, List.length_map, List.length_range]
    norm_num [smax, smin, pyRound]
    decide
  exact ⟨h1, h2, by omega⟩

/-- C5 (amended): a half-Hamming fade-in/fade-out is applied in place to the
start and end of every trial's target (leaving its length unchanged), and the
number of tapered samples at each end is `int((tmax - tmin) * sfreq)`, which
equals the number of delays minus one whenever `tmin * sfreq` and
`tmax * sfreq` are integers. -/
theorem C5_taper_length (tmin tmax sfreq : ℚ) (a b : ℤ)
    (ha : tmin * sfreq = (a : ℚ)) (hb : tmax * sfreq = (b : ℚ))
    (hab : a < b) :
    taperLen tmin tmax sfreq = (delaysList tmin tmax sfreq).length - 1
      ∧ ∀ wS wE y : List ℚ, (taperTrial wS wE y).length = y.length := by
  refine ⟨?_, fun wS wE y => taperTrial_length wS wE y⟩
  have hdiff : (tmax - tmin) * sfreq = ((b - a : ℤ) : ℚ) := by
    push_cast
    rw [← ha, ← hb]
    ring
  have htl : taperLen tmin tmax sfreq = (b - a).toNat := by
    rw [taperLen, hammingLength, hdiff, pyTrunc,
      if_pos (by exact_mod_cast (by omega : (0 : ℤ) ≤ b - a)),
      Int.floor_intCast]
    omega
  have hdl : (delaysList tmin tmax sfreq).length = (b + 1 - a).toNat := by
    rw [delaysList, List.length_map, List.length_range, smax, smin, ha, hb,
      pyRound_intCast, pyRound_intCast]
  rw [htl, hdl]
  omega

theorem C5_taper_length_witness :
    (0 : ℚ) * 100 = ((0 : ℤ) : ℚ) ∧ (1/50 : ℚ) * 100 = ((2 : ℤ) : ℚ)
      ∧ (0 : ℤ) < 2
      ∧ (taperLen 0 (1/50) 100 = (delaysList 0 (1/50) 100).length - 1
          ∧ ∀ wS wE y : List ℚ, (taperTrial wS wE y).length = y.length) :=
  ⟨by norm_num, by norm_num, by norm_num,
   C5_taper_length 0 (1/50) 100 0 2 (by norm_num) (by norm_num) (by norm_num)⟩

/-! ## C3: shape of the stored coefficient tensor -/

/-- C3 counterexample: in the configuration of the repository's test
`test_good_coef_shape_stim_recon` (1 output channel, 3 predictor features, 20
output features, 6 delays) the exposed tensor has shape `(1, 20, 3, 5)` —
output-feature axis before the feature axis — not the claimed
`(1, 3, 20, 5)`. -/
theorem C3_counterexample :
    trfCoefShape 3 1 3 20 6 = [1, 20, 3, 5]
      ∧ trfCoefShape 3 1 3 20 6 ≠ [1, 3, 20, 5] := by
  constructor <;> decide

/-- C3 (amended): after a successful fit the delay axis of `coef_` has length
`n_delays - 1` (the last delay's column is dropped before storing), and the
overall shape is `(n_outputs, n_features, n_delays - 1)` for 2-D targets and
`(n_outputs, n_output_features, n_features, n_delays - 1)` for 3-D targets. -/
theorem C3_coef_shape (nOutputs nFeat nOutFeat nDelays : ℕ) :
    trfCoefShape 2 nOutputs nFeat nOutFeat nDelays
        = [nOutputs, nFeat, nDelays - 1]
      ∧ trfCoefShape 3 nOutputs nFeat nOutFeat nDelays
        = [nOutputs, nOutFeat, nFeat, nDelays - 1]
      ∧ (trfCoefShape 2 nOutputs nFeat nOutFeat nDelays).getLast?
        = some (nDelays - 1)
      ∧ (trfCoefShape 3 nOutputs nFeat nOutFeat nDelays).getLast?
        = some (nDelays - 1) := by
  refine ⟨?_, ?_, ?_, ?_⟩ <;>
    simp [trfCoefShape, rfCoefShape, trimLastDelay, concatAxis0]

end Naplib

namespace Naplib

/-! ## C1: alpha selection by first-maximal mean score -/

theorem argmaxFirst_cons_cons (x y : ℚ) (xs : List ℚ) :
    argmaxFirst (x :: y :: xs)
      = if (y :: xs).getD (argmaxFirst (y :: xs)) 0 ≤ x then 0
        else argmaxFirst (y :: xs) + 1 := rfl

theorem argmaxFirst_lt_length : ∀ (l : List ℚ), l ≠ [] → argmaxFirst l < l.length
  | [_], _ => by simp [argmaxFirst]
  | x :: y :: xs, _ => by
    have ih := argmaxFirst_lt_length (y :: xs) (by simp)
    rw [argmaxFirst_cons_cons]
    by_cases h : (y :: xs).getD (argmaxFirst (y :: xs)) 0 ≤ x
    · rw [if_pos h]
      simp
    · rw [if_neg h]
      simp only [List.length_cons] at ih ⊢
      omega

theorem argmaxFirst_is_max :
    ∀ (l : List ℚ) (j : ℕ), j < l.length →
      l.getD j 0 ≤ l.getD (argmaxFirst l) 0
  | [x], j, hj => by
    have hj0 : j = 0 := by
      simpa using Nat.lt_one_iff.mp (by simpa using hj)
    subst hj0
    simp [argmaxFirst]
  | x :: y :: xs, j, hj => by
    rw [argmaxFirst_cons_cons]
    by_cases h : (y :: xs).getD (argmaxFirst (y :: xs)) 0 ≤ x
    · rw [if_pos h]
      rcases j with _ | j
      · simp
      · have ih := argmaxFirst_is_max (y :: xs) j (by simpa using hj)
        rw [List.getD_cons_succ, List.getD_cons_zero]
        exact le_trans ih h
    · rw [if_neg h]
      rcases j with _ | j
      · rw [List.getD_cons_succ, List.getD_cons_zero]
        linarith [not_le.mp h]
      · have ih := argmaxFirst_is_max (y :: xs) j (by simpa using hj)
        rw [List.getD_cons_succ, List.getD_cons_succ]
        exact ih

theorem argmaxFirst_first_max :
    ∀ (l : List ℚ) (j : ℕ), j < argmaxFirst l →
      l.getD j 0 < l.getD (argmaxFirst l) 0
  | [x], j, hj => by simp [argmaxFirst] at hj
  | x :: y :: xs, j, hj => by
    rw [argmaxFirst_cons_cons] at hj ⊢
    by_cases h : (y :: xs).getD (argmaxFirst (y :: xs)) 0 ≤ x
    · rw [if_pos h] at hj
      omega
    · rw [if_neg h] at hj ⊢
      rcases j with _ | j
      · rw [List.getD_cons_succ, List.getD_cons_zero]
        exact not_le.mp h
      · have hj2 : j < argmaxFirst (y :: xs) := by omega
        have ih := argmaxFirst_first_max (y :: xs) j hj2
        rw [List.getD_cons_succ, List.getD_cons_succ]
        exact ih

/-- C1: with multiple alpha candidates, `fit` selects for each output channel
the candidate `alpha[i]` where `i` is an index maximizing the mean held-out
score over all cross-validation folds (`meanScores`), and under exact ties
the lowest such index wins: every strictly earlier index has a strictly
smaller mean score. -/
theorem C1_alpha_selection (alphas : List ℚ) (scores : List (List ℚ))
    (h : meanScores scores ≠ []) :
    chooseBestAlpha alphas scores
        = alphas.getD (argmaxFirst (meanScores scores)) 0
      ∧ argmaxFirst (meanScores scores) < (meanScores scores).length
      ∧ (∀ j < (meanScores scores).length,
          (meanScores scores).getD j 0
            ≤ (meanScores scores).getD (argmaxFirst (meanScores scores)) 0)
      ∧ (∀ j < argmaxFirst (meanScores scores),
          (meanScores scores).getD j 0
            < (meanScores scores).getD (argmaxFirst (meanScores scores)) 0) :=
  ⟨rfl, argmaxFirst_lt_length _ h,
   fun j hj => argmaxFirst_is_max _ j hj,
   fun j hj => argmaxFirst_first_max _ j hj⟩

theorem C1_alpha_selection_witness :
    meanScores [[1, 2], [3, 2]] ≠ []
      ∧ (chooseBestAlpha [10, 20] [[1, 2], [3, 2]]
            = [10, 20].getD (argmaxFirst (meanScores [[1, 2], [3, 2]])) 0
          ∧ argmaxFirst (meanScores [[1, 2], [3, 2]])
              < (meanScores [[1, 2], [3, 2]]).length
          ∧ (∀ j < (meanScores [[1, 2], [3, 2]]).length,
              (meanScores [[1, 2], [3, 2]]).getD j 0
                ≤ (meanScores [[1, 2], [3, 2]]).getD
                    (argmaxFirst (meanScores [[1, 2], [3, 2]])) 0)
          ∧ (∀ j < argmaxFirst (meanScores [[1, 2], [3, 2]]),
              (meanScores [[1, 2], [3, 2]]).getD j 0
                < (meanScores [[1, 2], [3, 2]]).getD
                    (argmaxFirst (meanScores [[1, 2], [3, 2]])) 0)) :=
  ⟨by simp [meanScores], C1_alpha_selection [10, 20] [[1, 2], [3, 2]]
    (by simp [meanScores])⟩

end Naplib

namespace Naplib

/-! ## C6 / C7: orchestrator state after failed and successful fits -/

/-- C6 counterexample: on a 2-channel fit whose second channel fails with a
numerical error, the instance is not left in the unfit state: the error
propagates, yet `models_` holds the partially fitted channel list `[[1]]`,
the state differs from a never-fitted instance, and `predict` no longer
raises the state error — a partial model is observable. -/
theorem C6_counterexample :
    (fitTRF unfitTRF 2 2 failingSecondChannel).2 = .error FitErr.numerical
      ∧ (fitTRF unfitTRF 2 2 failingSecondChannel).1.models = some [[1]]
      ∧ (fitTRF unfitTRF 2 2 failingSecondChannel).1 ≠ unfitTRF
      ∧ predictRaisesStateError (fitTRF unfitTRF 2 2 failingSecondChannel).1
          = false := by
  refine ⟨rfl, rfl, ?_, rfl⟩
  intro hcontra
  have : (some [[(1 : ℚ)]] : Option (List (List ℚ))) = none :=
    congrArg TRFState.models hcontra
  exact Option.noConfusion this

/-- C6 (amended): if `fit` raises an error while fitting the output channels,
the orchestrator is not returned to the unfit state: `ndim_y_` stays
assigned and `models_` stays present (holding the channels fitted before the
failure), so subsequent `predict`, `score`, and coefficient access do not
raise the never-fitted state error. -/
theorem C6_failed_fit_state (s : TRFState) (ndimIn nTargets : ℕ)
    (fc : ℕ → Except FitErr (List ℚ)) (e : FitErr)
    (h : (fitTRF s ndimIn nTargets fc).2 = .error e) :
    (fitTRF s ndimIn nTargets fc).1.ndimY = some ndimIn
      ∧ ((fitTRF s ndimIn nTargets fc).1.models).isSome = true
      ∧ predictRaisesStateError (fitTRF s ndimIn nTargets fc).1 = false
      ∧ scoreRaisesStateError (fitTRF s ndimIn nTargets fc).1 = false
      ∧ coefRaisesStateError (fitTRF s ndimIn nTargets fc).1 = false := by
  refine ⟨rfl, rfl, rfl, rfl, rfl⟩

theorem C6_failed_fit_state_witness :
    (fitTRF unfitTRF 2 2 failingSecondChannel).2 = .error FitErr.numerical
      ∧ ((fitTRF unfitTRF 2 2 failingSecondChannel).1.ndimY = some 2
          ∧ ((fitTRF unfitTRF 2 2 failingSecondChannel).1.models).isSome = true
          ∧ predictRaisesStateError
              (fitTRF unfitTRF 2 2 failingSecondChannel).1 = false
          ∧ scoreRaisesStateError
              (fitTRF unfitTRF 2 2 failingSecondChannel).1 = false
          ∧ coefRaisesStateError
              (fitTRF unfitTRF 2 2 failingSecondChannel).1 = false) :=
  ⟨rfl, C6_failed_fit_state unfitTRF 2 2 failingSecondChannel
    FitErr.numerical rfl⟩

/-- C7 counterexample: an instance on which `fit` was called but did not
complete successfully (every channel failed) nevertheless does not raise the
state error on `predict`, `score`, or coefficient access, contradicting the
claim's "for every model instance on which fit has not completed
successfully". -/
theorem C7_counterexample :
    (fitTRF unfitTRF 2 1 (fun _ => .error .numerical)).2
        = .error FitErr.numerical
      ∧ predictRaisesStateError
          (fitTRF unfitTRF 2 1 (fun _ => .error .numerical)).1 = false
      ∧ scoreRaisesStateError
          (fitTRF unfitTRF 2 1 (fun _ => .error .numerical)).1 = false
      ∧ coefRaisesStateError
          (fitTRF unfitTRF 2 1 (fun _ => .error .numerical)).1 = false :=
  ⟨rfl, rfl, rfl, rfl⟩

/-- C7 (amended): on a never-fitted instance, `predict`, `score`, and
coefficient access all raise the state error; after a `fit` call that
completed successfully, none of them raises it. -/
theorem C7_state_errors (s : TRFState) (ndimIn nTargets : ℕ)
    (fc : ℕ → Except FitErr (List ℚ))
    (h : (fitTRF s ndimIn nTargets fc).2 = .ok ()) :
    (predictRaisesStateError unfitTRF = true
      ∧ scoreRaisesStateError unfitTRF = true
      ∧ coefRaisesStateError unfitTRF = true)
    ∧ (predictRaisesStateError (fitTRF s ndimIn nTargets fc).1 = false
      ∧ scoreRaisesStateError (fitTRF s ndimIn nTargets fc).1 = false
      ∧ coefRaisesStateError (fitTRF s ndimIn nTargets fc).1 = false) :=
  ⟨⟨rfl, rfl, rfl⟩, rfl, rfl, rfl⟩

theorem C7_state_errors_witness :
    (fitTRF unfitTRF 2 1 (fun _ => Except.ok [1])).2 = Except.ok ()
      ∧ ((predictRaisesStateError unfitTRF = true
          ∧ scoreRaisesStateError unfitTRF = true
          ∧ coefRaisesStateError unfitTRF = true)
        ∧ (predictRaisesStateError
              (fitTRF unfitTRF 2 1 (fun _ => Except.ok [1])).1 = false
          ∧ scoreRaisesStateError
              (fitTRF unfitTRF 2 1 (fun _ => Except.ok [1])).1 = false
          ∧ coefRaisesStateError
              (fitTRF unfitTRF 2 1 (fun _ => Except.ok [1])).1 = false)) :=
  ⟨rfl, C7_state_errors unfitTRF 2 1 (fun _ => Except.ok [1]) rfl⟩

/-! ## C8: construction-time configuration errors -/

/-- C8: construction raises a configuration error if and only if
`tmin >= tmax`, or more than one alpha candidate is in effect (counting the
default grid for `alpha=None`) together with `xval_test_portion > 0.5`; the
check is part of `__init__` and touches no data, so it happens before any
fitting. -/
theorem C8_init_errors (tmin tmax sfreq : ℚ) (alpha : AlphaArg) (portion : ℚ) :
    (∃ e, trfInit tmin tmax sfreq alpha portion = .error e)
      ↔ (tmax ≤ tmin
          ∨ (1 < (alphaCandidates alpha).length ∧ 1/2 < portion)) := by
  unfold trfInit
  split_ifs with h1 h2
  · simp only [ge_iff_le] at h1
    constructor
    · intro _
      exact Or.inl h1
    · intro _
      exact ⟨InitErr.tminNotLessThanTmax, rfl⟩
  · constructor
    · intro _
      exact Or.inr h2
    · intro _
      exact ⟨InitErr.portionTooLarge, rfl⟩
  · simp only [ge_iff_le, not_le] at h1
    constructor
    · rintro ⟨e, he⟩
      exact absurd he (by simp)
    · rintro (hc | hc)
      · exact absurd hc (not_le.mpr h1)
      · exact absurd hc h2

end Naplib

namespace Naplib

/-! ## C9: duration weighting in score -/

theorem zipWith_mul_div_sum (o : ℕ) (c : ℚ) :
    ∀ (T : List ℕ) (S : List (List ℚ)),
      (List.zipWith (fun w s => w * s.getD o 0)
          (T.map (fun t : ℕ => (t : ℚ) / c)) S).sum
        = (List.zipWith (fun (t : ℕ) s => (t : ℚ) * s.getD o 0) T S).sum / c
  | [], S => by simp
  | t :: T, [] => by simp
  | t :: T, s :: S => by
    simp only [List.map_cons, List.zipWith_cons_cons, List.sum_cons]
    rw [zipWith_mul_div_sum o c T S, add_div, div_mul_eq_mul_div]

theorem sum_map_div_natCast (T : List ℕ) (c : ℚ) :
    (T.map (fun t : ℕ => (t : ℚ) / c)).sum = ((T.sum : ℕ) : ℚ) / c := by
  induction T with
  | nil => simp
  | cons t T ih =>
    simp only [List.map_cons, List.sum_cons, List.sum_cons, ih]
    push_cast
    rw [add_div]

theorem zipWith_const_one_mul (o : ℕ) :
    ∀ (T : List ℕ) (S : List (List ℚ)), T.length = S.length →
      (List.zipWith (fun w s => w * s.getD o 0)
          (T.map (fun _ : ℕ => (1 : ℚ))) S).sum
        = (S.map (fun s => s.getD o 0)).sum
  | [], [], _ => by simp
  | t :: T, s :: S, h => by
    simp only [List.map_cons, List.zipWith_cons_cons, List.sum_cons, one_mul]
    rw [zipWith_const_one_mul o T S (by simpa using h)]

theorem sum_map_const_one (T : List ℕ) :
    (T.map (fun _ : ℕ => (1 : ℚ))).sum = (T.length : ℚ) := by
  induction T with
  | nil => simp
  | cons t T ih => simp [ih, add_comm]

/-- C9: for a fitted model and trials of durations `T`, `score` with duration
weighting enabled returns, per output, the average of the per-trial scores
weighted proportionally to each trial's time length, i.e.
`(Σ_t T_t * s_t) / Σ_t T_t`; with weighting disabled it returns the
unweighted average `(Σ_t s_t) / n`. -/
theorem C9_score_weighting (S : List (List ℚ)) (T : List ℕ) (o : ℕ)
    (hlen : T.length = S.length) (hpos : 0 < T.sum)
    (ho : o < (S.headD []).length) :
    (trfScore S T true).getD o 0
        = (List.zipWith (fun (t : ℕ) s => (t : ℚ) * s.getD o 0) T S).sum
            / ((T.sum : ℕ) : ℚ)
      ∧ (trfScore S T false).getD o 0
        = (S.map (fun s => s.getD o 0)).sum / (S.length : ℚ) := by
  have hS : S ≠ [] := by
    intro hnil
    rw [hnil, List.length_nil, List.length_eq_zero] at hlen
    rw [hlen] at hpos
    simp at hpos
  obtain ⟨s0, St, rfl⟩ := List.exists_cons_of_ne_nil hS
  have ho0 : o < s0.length := by simpa using ho
  have hsum0 : ((T.sum : ℕ) : ℚ) ≠ 0 := by
    exact_mod_cast hpos.ne'
  constructor
  · rw [trfScore, scoreWeights, if_pos rfl, scorePredictionsAgg]
    rw [getD_map_range s0.length o _ 0 ho0]
    rw [zipWith_mul_div_sum, sum_map_div_natCast, div_self hsum0, div_one]
  · rw [trfScore, scoreWeights, if_neg (by simp), scorePredictionsAgg]
    rw [getD_map_range s0.length o _ 0 ho0]
    rw [zipWith_const_one_mul o T (s0 :: St) hlen, sum_map_const_one, hlen]

theorem C9_score_weighting_witness :
    ([1, 3] : List ℕ).length = ([[1, 2], [3, 4]] : List (List ℚ)).length
      ∧ 0 < ([1, 3] : List ℕ).sum
      ∧ 0 < (([[1, 2], [3, 4]] : List (List ℚ)).headD []).length
      ∧ ((trfScore [[1, 2], [3, 4]] [1, 3] true).getD 0 0
            = (List.zipWith (fun (t : ℕ) s => (t : ℚ) * s.getD 0 0)
                [1, 3] [[1, 2], [3, 4]]).sum / ((([1, 3] : List ℕ).sum : ℕ) : ℚ)
          ∧ (trfScore [[1, 2], [3, 4]] [1, 3] false).getD 0 0
            = (([[1, 2], [3, 4]] : List (List ℚ)).map
                (fun s => s.getD 0 0)).sum
                / ((([[1, 2], [3, 4]] : List (List ℚ)).length : ℕ) : ℚ)) :=
  ⟨rfl, by decide, by decide,
   C9_score_weighting [[1, 2], [3, 4]] [1, 3] 0 rfl (by decide) (by decide)⟩

end Naplib

namespace Naplib

/-! ## C2: cross-validation fold structure -/

theorem numChunks_eq (T w : ℕ) (hw : 0 < w) :
    numChunks T w = T / w := by
  have hw0 : ((w : ℕ) : ℚ) ≠ 0 := by
    exact_mod_cast hw.ne'
  have hdiv : ((T : ℚ) - (w : ℚ)) / (w : ℚ) + 1 = (T : ℚ) / (w : ℚ) := by
    field_simp
  rw [numChunks, hdiv, pyTrunc, if_pos (by positivity), Int.floor_toNat,
    Nat.floor_div_nat, Nat.floor_natCast]

theorem div_eq_sub_div_add_one {T w : ℕ} (hw : 0 < w) (hwT : w ≤ T) :
    T / w = (T - w) / w + 1 := by
  conv_lhs => rw [← Nat.sub_add_cancel hwT]
  rw [Nat.add_div_right _ hw]

/-- C2: for a concatenated series of length `T` and fraction `p` with a
nonzero block `w = floor(T * p)` not exceeding `T`, the split generator
produces `floor((T - w)/w) + 1` folds; fold `k`'s test set is the contiguous
block of `w` samples starting at `k * w`, and its train set is the
complement — the remaining `T - w` samples in their original order (sample
`j` of the train set is sample `j` of the series if `j` precedes the test
window, and sample `j + w` otherwise). -/
theorem C2_xval_splits {α : Type} (data : List α) (p : ℚ) (d : α)
    (hw : 0 < winSize data.length p)
    (hwT : winSize data.length p ≤ data.length) :
    (xvalTimeSplits data p).length
        = (data.length - winSize data.length p) / winSize data.length p + 1
      ∧ ∀ k, k < (xvalTimeSplits data p).length →
          (((xvalTimeSplits data p).getD k ([], [])).2.length
              = winSize data.length p
            ∧ (∀ j, j < winSize data.length p →
                ((xvalTimeSplits data p).getD k ([], [])).2.getD j d
                  = data.getD (k * winSize data.length p + j) d)
            ∧ ((xvalTimeSplits data p).getD k ([], [])).1.length
              = data.length - winSize data.length p
            ∧ (∀ j, j < data.length - winSize data.length p →
                ((xvalTimeSplits data p).getD k ([], [])).1.getD j d
                  = if j < k * winSize data.length p then data.getD j d
                    else data.getD (j + winSize data.length p) d)) := by
  have hlen : (xvalTimeSplits data p).length
      = numChunks data.length (winSize data.length p) := by
    simp [xvalTimeSplits]
  have hnum : numChunks data.length (winSize data.length p)
      = data.length / winSize data.length p :=
    numChunks_eq _ _ hw
  have hcount : (xvalTimeSplits data p).length
      = (data.length - winSize data.length p) / winSize data.length p + 1 := by
    rw [hlen, hnum, div_eq_sub_div_add_one hw hwT]
  refine ⟨hcount, ?_⟩
  intro k hk
  have hk2 : k < data.length / winSize data.length p := by
    rw [hlen, hnum] at hk
    exact hk
  have hkw : k * winSize data.length p + winSize data.length p
      ≤ data.length := by
    have h2 : (k + 1) * winSize data.length p
        ≤ (data.length / winSize data.length p) * winSize data.length p :=
      Nat.mul_le_mul_right _ hk2
    have h3 : (data.length / winSize data.length p) * winSize data.length p
        ≤ data.length := Nat.div_mul_le_self _ _
    calc k * winSize data.length p + winSize data.length p
        = (k + 1) * winSize data.length p := by ring
      _ ≤ data.length := le_trans h2 h3
  have hfold : (xvalTimeSplits data p).getD k ([], [])
      = (data.take (k * winSize data.length p)
            ++ data.drop (k * winSize data.length p + winSize data.length p),
         (data.drop (k * winSize data.length p)).take
            (winSize data.length p)) := by
    have hk3 : k < numChunks data.length (winSize data.length p) := by
      rw [hnum]
      exact hk2
    simp only [xvalTimeSplits]
    exact getD_map_range _ k _ _ hk3
  rw [hfold]
  refine ⟨?_, ?_, ?_, ?_⟩
  · simp only [List.length_take, List.length_drop]
    omega
  · intro j hj
    simp only [List.getD_eq_getElem?_getD]
    rw [List.getElem?_take_of_lt hj, List.getElem?_drop]
  · simp only [List.length_append, List.length_take, List.length_drop]
    omega
  · intro j hj
    simp only [List.getD_eq_getElem?_getD]
    by_cases hjk : j < k * winSize data.length p
    · rw [if_pos hjk]
      rw [List.getElem?_append_left
        (by simpa [List.length_take] using (by omega :
          j < min (k * winSize data.length p) data.length))]
      rw [List.getElem?_take_of_lt hjk]
    · rw [if_neg hjk]
      have hmin : (List.take (k * winSize data.length p) data).length
          = k * winSize data.length p := by
        rw [List.length_take]
        omega
      rw [List.getElem?_append_right (by rw [hmin]; omega)]
      rw [List.getElem?_drop, hmin]
      have hidx : k * winSize data.length p + winSize data.length p
          + (j - k * winSize data.length p) = j + winSize data.length p := by
        omega
      rw [hidx]

theorem C2_xval_splits_witness :
    0 < winSize ([0, 1, 2, 3, 4] : List ℕ).length (1/2)
      ∧ winSize ([0, 1, 2, 3, 4] : List ℕ).length (1/2)
          ≤ ([0, 1, 2, 3, 4] : List ℕ).length
      ∧ ((xvalTimeSplits ([0, 1, 2, 3, 4] : List ℕ) (1/2)).length
            = (([0, 1, 2, 3, 4] : List ℕ).length
                - winSize ([0, 1, 2, 3, 4] : List ℕ).length (1/2))
              / winSize ([0, 1, 2, 3, 4] : List ℕ).length (1/2) + 1
          ∧ ∀ k, k < (xvalTimeSplits ([0, 1, 2, 3, 4] : List ℕ) (1/2)).length →
              (((xvalTimeSplits ([0, 1, 2, 3, 4] : List ℕ) (1/2)).getD k
                    ([], [])).2.length
                  = winSize ([0, 1, 2, 3, 4] : List ℕ).length (1/2)
                ∧ (∀ j, j < winSize ([0, 1, 2, 3, 4] : List ℕ).length (1/2) →
                    ((xvalTimeSplits ([0, 1, 2, 3, 4] : List ℕ) (1/2)).getD k
                        ([], [])).2.getD j 0
                      = ([0, 1, 2, 3, 4] : List ℕ).getD
                          (k * winSize ([0, 1, 2, 3, 4] : List ℕ).length (1/2)
                            + j) 0)
                ∧ ((xvalTimeSplits ([0, 1, 2, 3, 4] : List ℕ) (1/2)).getD k
                      ([], [])).1.length
                  = ([0, 1, 2, 3, 4] : List ℕ).length
                      - winSize ([0, 1, 2, 3, 4] : List ℕ).length (1/2)
                ∧ (∀ j, j < ([0, 1, 2, 3, 4] : List ℕ).length
                      - winSize ([0, 1, 2, 3, 4] : List ℕ).length (1/2) →
                    ((xvalTimeSplits ([0, 1, 2, 3, 4] : List ℕ) (1/2)).getD k
                        ([], [])).1.getD j 0
                      = if j < k * winSize ([0, 1, 2, 3, 4] : List ℕ).length
                            (1/2) then
                          ([0, 1, 2, 3, 4] : List ℕ).getD j 0
                        else
                          ([0, 1, 2, 3, 4] : List ℕ).getD
                            (j + winSize ([0, 1, 2, 3, 4] : List ℕ).length
                              (1/2)) 0))) := by
  have hw : winSize ([0, 1, 2, 3, 4] : List ℕ).length (1/2) = 2 := by
    rw [winSize]
    norm_num
    decide
  refine ⟨by rw [hw]; norm_num, by rw [hw]; norm_num, ?_⟩
  exact C2_xval_splits [0, 1, 2, 3, 4] (1/2) 0
    (by rw [hw]; norm_num) (by rw [hw]; norm_num)

end Naplib

namespace Naplib

/-! ## C10: caller-supplied arrays are unchanged -/

theorem getD_append_of_lt {α : Type} (l1 l2 : List α) (r : ℕ) (d : α)
    (h : r < l1.length) :
    (l1 ++ l2).getD r d = l1.getD r d := by
  simp only [List.getD_eq_getElem?_getD]
  rw [List.getElem?_append_left h]

theorem taperAll_getD_of_lt (f : List ℚ → List ℚ) :
    ∀ (rs : List ℕ) (st : List (List ℚ)) (n : ℕ),
      (∀ x ∈ rs, n ≤ x) → ∀ r, r < n →
        (taperAll f st rs).getD r [] = st.getD r []
  | [], st, n, _, r, _ => rfl
  | x :: rs, st, n, hmem, r, hr => by
    have hx : n ≤ x := hmem x (List.mem_cons_self x rs)
    have htail := taperAll_getD_of_lt f rs
      (st.set x (f (st.getD x []))) n
      (fun y hy => hmem y (List.mem_cons_of_mem x hy)) r hr
    have hstep : taperAll f st (x :: rs)
        = taperAll f (st.set x (f (st.getD x []))) rs := rfl
    rw [hstep, htail]
    simp only [List.getD_eq_getElem?_getD]
    rw [List.getElem?_set_ne (by omega : x ≠ r)]

/-- C10: `fit` and `score` deep-copy the caller-supplied predictor and target
arrays before the in-place boundary taper touches anything, and `predict`
only reads; so after any of the three calls every caller-owned array cell of
the store holds exactly its original contents. -/
theorem C10_caller_arrays_unchanged (st : List (List ℚ))
    (xRefs yRefs : List ℕ) (f : List ℚ → List ℚ) (r : ℕ)
    (hr : r < st.length) :
    (fitStoreEffect st xRefs yRefs f).getD r [] = st.getD r []
      ∧ (scoreStoreEffect st xRefs yRefs).getD r [] = st.getD r []
      ∧ (predictStoreEffect st).getD r [] = st.getD r [] := by
  have hsplit : ∀ (l1 l2 : List (List ℚ)),
      ((st ++ l1) ++ l2).getD r [] = st.getD r [] := by
    intro l1 l2
    rw [getD_append_of_lt (st ++ l1) l2 r []
        (by simp only [List.length_append]; omega),
      getD_append_of_lt st l1 r [] hr]
  refine ⟨?_, ?_, rfl⟩
  · unfold fitStoreEffect deepcopyRefs
    rw [taperAll_getD_of_lt f _ _ st.length ?hmem r hr]
    case hmem =>
      intro x hx
      simp only [List.mem_map, List.mem_range] at hx
      obtain ⟨i, _, rfl⟩ := hx
      simp only [List.length_append]
      omega
    exact hsplit _ _
  · unfold scoreStoreEffect deepcopyRefs
    exact hsplit _ _

theorem C10_caller_arrays_unchanged_witness :
    0 < ([[5], [7]] : List (List ℚ)).length
      ∧ ((fitStoreEffect [[5], [7]] [0] [1]
            (fun v => v.map (fun q => q * 2))).getD 0 [] = [[5], [7]].getD 0 []
        ∧ (scoreStoreEffect [[5], [7]] [0] [1]).getD 0 [] = [[5], [7]].getD 0 []
        ∧ (predictStoreEffect [[5], [7]]).getD 0 [] = [[5], [7]].getD 0 []) :=
  ⟨by decide,
   C10_caller_arrays_unchanged [[5], [7]] [0] [1]
     (fun v => v.map (fun q => q * 2)) 0 (by decide)⟩

end Naplib
